import Mathlib

/-!
# kedgify: reading manifest files and splitting them into documents

A shallow embedding of `getAllYAMLFiles` and `getResourcesFromFiles` of
`pkg/core/util.go`.

* A Go string is modelled by the list of runes that the packages `regexp`
  and `strings` decode from it (`List Char`); on valid UTF-8 this is the byte
  content itself. The pattern `(^|\n)---\n` is pure ASCII, so every segment
  boundary falls between two runes.
* A Go result `(value, error)` is modelled by a pair whose second component is
  `none` for a nil error; a nil slice is the empty list.
* The operating system is explicit: `FileSystem` for `getAllYAMLFiles`, `Env`
  for `getResourcesFromFiles`.
-/

namespace Kedgify

/-! ## Data model -/

/-- Go error values: an error produced by the `os` or `filepath` layer, or an
error wrapped with a context message by `errors.Wrap` / `errors.Wrapf`. -/
inductive GoError where
  | base (msg : String)
  | wrap (cause : GoError) (msg : String)
deriving DecidableEq, Repr

/-- The struct `inputData` of util.go: the absolute file name and the bytes of
one document. -/
structure inputData where
  fileName : String
  data : List Char
deriving DecidableEq, Repr

/-- The library calls of `getResourcesFromFiles` that depend on the machine:
`ioutil.ReadFile`, `filepath.Abs`, and the `%q` verb of the formatter. -/
structure Env where
  ReadFile : String → List Char × Option GoError
  Abs : String → String × Option GoError
  Quote : String → String

/-! ## strings.TrimSpace -/

/-- The predicate `unicode.IsSpace`: the Latin-1 spaces and the other code
points of the Unicode property White_Space. -/
def IsSpace (r : Char) : Bool :=
  let n := r.toNat
  if n ≤ 0xFF then
    n == 0x09 || n == 0x0A || n == 0x0B || n == 0x0C || n == 0x0D || n == 0x20
      || n == 0x85 || n == 0xA0
  else
    n == 0x1680 || (0x2000 ≤ n && n ≤ 0x200A) || n == 0x2028 || n == 0x2029
      || n == 0x202F || n == 0x205F || n == 0x3000

/-- The function `strings.TrimLeftFunc`. -/
def TrimLeftFunc (s : List Char) (f : Char → Bool) : List Char :=
  s.dropWhile f

/-- The function `strings.TrimRightFunc`. -/
def TrimRightFunc (s : List Char) (f : Char → Bool) : List Char :=
  (s.reverse.dropWhile f).reverse

/-- The function `strings.TrimSpace`: `TrimFunc(s, unicode.IsSpace)`. -/
def TrimSpace (s : List Char) : List Char :=
  TrimRightFunc (TrimLeftFunc s IsSpace) IsSpace

/-! ## regexp.MustCompile("(^|\n)---\n").Split(s, -1) -/

/-- The match of the alternative `^---\n`, possible at offset 0 only. -/
def sepStart : List Char := ['-', '-', '-', '\n']

/-- The match of the alternative `\n---\n`. -/
def sepMid : List Char := ['\n', '-', '-', '-', '\n']

/-- Puts a rune in front of the first segment. -/
def consHead (c : Char) : List (List Char) → List (List Char)
  | [] => [[c]]
  | seg :: segs => (c :: seg) :: segs

/-- The segments of the text that starts at an offset other than 0, where `^`
cannot match: the search takes the leftmost occurrence of `\n---\n`, and goes
on behind its last rune (matches never overlap). The text behind the last
match is always a segment, also when it is empty. -/
def splitFrom : List Char → List (List Char)
  | [] => [[]]
  | '\n' :: '-' :: '-' :: '-' :: '\n' :: rest => [] :: splitFrom rest
  | c :: cs => consHead c (splitFrom cs)

/-- The call `Split(s, -1)` of the compiled pattern `(^|\n)---\n`: at offset 0
the alternative `^---\n` is tried first, and the segment in front of that
match is the empty string; every later match is an occurrence of `\n---\n`. -/
def Split : List Char → List (List Char)
  | '-' :: '-' :: '-' :: '\n' :: rest => [] :: splitFrom rest
  | s => splitFrom s

/-! ## getResourcesFromFiles -/

/-- The inner loop `for _, app := range apps` (lines 69-89): a segment is
appended to `appData` when `len(strings.TrimSpace(app)) > 0`. -/
def appendApps (file : String) : List (List Char) → List inputData → List inputData
  | [], appData => appData
  | app :: apps, appData =>
      if (TrimSpace app).length > 0 then
        appendApps file apps (appData ++ [{ fileName := file, data := app }])
      else
        appendApps file apps appData

/-- Lines 68-89 for one file whose absolute name is `file` and whose content
is `data`, starting from an empty `appData`. -/
def splitFile (file : String) (data : List Char) : List inputData :=
  appendApps file (Split data) []

/-- The outer loop `for _, file := range files` (lines 52-90) with the
accumulator `appData`. The second `file` of the source shadows the loop
variable, so the message of the path-resolution error quotes the string that
`filepath.Abs` returned. -/
def getResourcesLoop (env : Env) : List String → List inputData →
    List inputData × Option GoError
  | [], appData => (appData, none)
  | file :: files, appData =>
      match env.ReadFile file with
      | (_, some err) => ([], some (GoError.wrap err "file reading failed"))
      | (data, none) =>
          match env.Abs file with
          | (file1, some err) =>
              ([], some (GoError.wrap err
                ("cannot determine the absolute file path of " ++ env.Quote file1)))
          | (file1, none) =>
              getResourcesLoop env files (appendApps file1 (Split data) appData)

/-- The function `getResourcesFromFiles` of util.go. -/
def getResourcesFromFiles (env : Env) (files : List String) :
    List inputData × Option GoError :=
  getResourcesLoop env files []

/-- The contents of the documents, in order. -/
def contents (docs : List inputData) : List (List Char) :=
  docs.map inputData.data

/-- The test of line 83, `len(strings.TrimSpace(app)) > 0`, as a Boolean. -/
def keeps (app : List Char) : Bool := decide ((TrimSpace app).length > 0)

/-- The separator `\n---\n` without its last newline. -/
def sepOpen : List Char := ['\n', '-', '-', '-']

/-- Lists of segments in which the separators sit exactly between consecutive
segments: no segment contains `\n---\n`, and no segment but the last ends in
`\n---`. -/
def Tight : List (List Char) → Prop
  | [] => True
  | x :: l => ¬ sepMid <:+: x ∧ (l ≠ [] → ¬ sepOpen <:+ x) ∧ Tight l

/-- A content without document separator: it does not begin with `---\n` and
`\n---\n` does not occur in it. -/
def noSeparator (s : List Char) : Prop :=
  ¬ sepStart <+: s ∧ ¬ sepMid <:+: s

instance : DecidablePred noSeparator :=
  fun s => by unfold noSeparator; infer_instance

/-- The segment contains a rune that is not whitespace. -/
def hasNonSpace (seg : List Char) : Bool :=
  seg.any (fun c => !IsSpace c)

/-- The text `seg0 ++ sep1 ++ seg1 ++ ... ++ sepk ++ segk`, given as the first
segment and the pairs `(sepj, segj)`. -/
def assemble (seg0 : List Char) (parts : List (List Char × List Char)) : List Char :=
  seg0 ++ (parts.map (fun p => p.1 ++ p.2)).flatten

/-- Every separator of the decomposition is `\n---\n`, or is `---\n` at offset
0 of the text; `offset` is the offset of the first separator of the list. -/
def validSeps : Nat → List (List Char × List Char) → Prop
  | _, [] => True
  | offset, p :: parts =>
      (p.1 = sepMid ∨ (p.1 = sepStart ∧ offset = 0)) ∧
        validSeps (offset + p.1.length + p.2.length) parts

/-- The file can be read and resolved to an absolute path: both library calls
return a nil error. -/
def usable (env : Env) (file : String) : Prop :=
  (env.ReadFile file).2 = none ∧ (env.Abs file).2 = none

instance (env : Env) : DecidablePred (usable env) :=
  fun file => by unfold usable; infer_instance

/-- The documents of one usable file: its content split under its absolute
name. -/
def documentsOf (env : Env) (file : String) : List inputData :=
  splitFile (env.Abs file).1 (env.ReadFile file).1

/-- An environment with three files: `a.yaml` and `b.yaml` can be read and
resolved, `blank.yaml` holds separators only, every other path is missing. -/
def sampleEnv : Env where
  ReadFile := fun p =>
    if p = "a.yaml" then ("---\na: 1\n---\nb: 2\n".toList, none)
    else if p = "b.yaml" then ("c: 3\n".toList, none)
    else if p = "blank.yaml" then ("---\n\n---\n".toList, none)
    else ([], some (GoError.base ("open " ++ p ++ ": no such file or directory")))
  Abs := fun p => ("/w/" ++ p, none)
  Quote := fun s => "\"" ++ s ++ "\""

/-! ## getAllYAMLFiles -/

/-- What `os.Stat` reports about an existing path, as far as the code and the
claims look at it: the file type of its mode (a regular file, a directory, or
another kind of file such as a device, a socket or a named pipe). -/
inductive FileInfo where
  | regular
  | dir
  | other
deriving DecidableEq, Repr

/-- The method `IsDir` of `os.FileInfo`. -/
def FileInfo.IsDir : FileInfo → Bool
  | FileInfo.dir => true
  | _ => false

/-- The method `Mode().IsRegular()` of `os.FileInfo`. -/
def FileInfo.IsRegular : FileInfo → Bool
  | FileInfo.regular => true
  | _ => false

/-- The library calls of `getAllYAMLFiles` that depend on the machine:
`os.Stat`, `filepath.Glob`, and `filepath.Join` of a path and a pattern. -/
structure FileSystem where
  Stat : String → FileInfo × Option GoError
  Glob : String → List String × Option GoError
  Join : String → String → String

/-- The loop `for _, path := range paths` (lines 22-42) with the accumulator
`files`; each early `return nil, err` ends the loop with no list. -/
def collectFiles (fs : FileSystem) : List String → List String →
    List String × Option GoError
  | [], files => (files, none)
  | path :: paths, files =>
      match fs.Stat path with
      | (_, some err) =>
          ([], some (GoError.wrap err ("can't get file info about " ++ path)))
      | (fileInfo, none) =>
          if fileInfo.IsDir then
            match fs.Glob (fs.Join path "*.yml") with
            | (_, some err) =>
                ([], some (GoError.wrap err ("can't list *.yml files in " ++ path)))
            | (ymlFiles, none) =>
                match fs.Glob (fs.Join path "*.yaml") with
                | (_, some err) =>
                    ([], some (GoError.wrap err ("can't list *.yaml files in " ++ path)))
                | (yamlFiles, none) =>
                    collectFiles fs paths ((files ++ ymlFiles) ++ yamlFiles)
          else
            collectFiles fs paths (files ++ [path])

/-- The function `getAllYAMLFiles` of util.go: the loop, then the check
`len(files) == 0` of line 43. -/
def getAllYAMLFiles (fs : FileSystem) (paths : List String) :
    List String × Option GoError :=
  match collectFiles fs paths [] with
  | (_, some err) => ([], some err)
  | (files, none) =>
      if files.length = 0 then
        ([], some (GoError.base "no *.yml or *.yaml files were found"))
      else
        (files, none)

/-- The loop passes the path: its `os.Stat` succeeds and, when it is a
directory, both of its listings succeed. -/
def proceeds (fs : FileSystem) (path : String) : Prop :=
  (fs.Stat path).2 = none ∧
    ((fs.Stat path).1.IsDir = true →
      (fs.Glob (fs.Join path "*.yml")).2 = none ∧ (fs.Glob (fs.Join path "*.yaml")).2 = none)

instance (fs : FileSystem) : DecidablePred (proceeds fs) :=
  fun path => by unfold proceeds; infer_instance

/-- What one input path adds to `files`: for a directory the matches of
`*.yml` followed by the matches of `*.yaml`, for any other path the path. -/
def contribution (fs : FileSystem) (path : String) : List String :=
  if (fs.Stat path).1.IsDir then
    (fs.Glob (fs.Join path "*.yml")).1 ++ (fs.Glob (fs.Join path "*.yaml")).1
  else
    [path]

/-- A file system: the directory `conf` holds `a.yml`, `b.yaml`, `notes.txt`
and a subdirectory named `sub.yml`; the directory `empty` holds nothing; the
listing of the directory `bad[` fails; `x.txt` is a regular file; every other
path is missing. -/
def sampleFS : FileSystem where
  Stat := fun p =>
    if p = "conf" ∨ p = "empty" ∨ p = "bad[" ∨ p = "conf/sub.yml" then (FileInfo.dir, none)
    else if p = "x.txt" ∨ p = "conf/a.yml" ∨ p = "conf/b.yaml" ∨ p = "conf/notes.txt" then
      (FileInfo.regular, none)
    else (FileInfo.other, some (GoError.base ("stat " ++ p ++ ": no such file or directory")))
  Glob := fun pattern =>
    if pattern = "conf/*.yml" then (["conf/a.yml", "conf/sub.yml"], none)
    else if pattern = "conf/*.yaml" then (["conf/b.yaml"], none)
    else if pattern = "bad[/*.yml" ∨ pattern = "bad[/*.yaml" then
      ([], some (GoError.base "syntax error in pattern"))
    else ([], none)
  Join := fun dir pattern => dir ++ "/" ++ pattern

/-- A file system with a directory whose name is `c*f`: it holds the single
entry `own.yml`; the directory `conf` next to it holds `other.yml` and
`other.yaml`. `filepath.Glob` reads the directory part of a pattern as a
pattern too, so `c*f/*.yml` and `c*f/*.yaml` match in both directories. -/
def patternFS : FileSystem where
  Stat := fun p =>
    if p = "c*f" ∨ p = "conf" then (FileInfo.dir, none)
    else if p = "c*f/own.yml" ∨ p = "conf/other.yml" ∨ p = "conf/other.yaml" then
      (FileInfo.regular, none)
    else (FileInfo.other, some (GoError.base ("stat " ++ p ++ ": no such file or directory")))
  Glob := fun pattern =>
    if pattern = "c*f/*.yml" then (["c*f/own.yml", "conf/other.yml"], none)
    else if pattern = "c*f/*.yaml" then (["conf/other.yaml"], none)
    else if pattern = "conf/*.yml" then (["conf/other.yml"], none)
    else if pattern = "conf/*.yaml" then (["conf/other.yaml"], none)
    else ([], none)
  Join := fun dir pattern => dir ++ "/" ++ pattern

/-- An environment in which the working directory is gone: `a.yaml` can be
read, and `filepath.Abs` fails on every relative path, returning the empty
string with the error of `os.Getwd`. -/
def lostCwdEnv : Env where
  ReadFile := fun p =>
    if p = "a.yaml" then ("a: 1\n".toList, none)
    else ([], some (GoError.base ("open " ++ p ++ ": no such file or directory")))
  Abs := fun _ => ("", some (GoError.base "getwd: no such file or directory"))
  Quote := fun s => "\"" ++ s ++ "\""

/-! ## Whitespace and the inner loop -/

theorem dropWhile_exists_false (p : Char → Bool) (s : List Char) :
    (∃ c ∈ s.dropWhile p, p c = false) ↔ ∃ c ∈ s, p c = false := by
  induction s with
  | nil => simp
  | cons a s ih =>
      by_cases h : p a = true
      · simp [List.dropWhile_cons, h, ih]
      · simp [List.dropWhile_cons, h]

theorem trimSpace_pos_iff (s : List Char) :
    0 < (TrimSpace s).length ↔ ∃ c ∈ s, IsSpace c = false := by
  unfold TrimSpace TrimRightFunc TrimLeftFunc
  rw [List.length_pos, ← dropWhile_exists_false IsSpace s]
  simp [List.dropWhile_eq_nil_iff]

theorem keeps_iff (s : List Char) : keeps s = true ↔ ∃ c ∈ s, IsSpace c = false := by
  simp [keeps, trimSpace_pos_iff]

theorem appendApps_eq (file : String) (apps : List (List Char)) (appData : List inputData) :
    appendApps file apps appData
      = appData ++ (apps.filter keeps).map (fun app => { fileName := file, data := app }) := by
  induction apps generalizing appData with
  | nil => simp [appendApps]
  | cons app apps ih =>
      by_cases h : (TrimSpace app).length > 0
      · simp [appendApps, h, ih, keeps]
      · simp [appendApps, h, ih, keeps]

theorem contents_splitFile (file : String) (s : List Char) :
    contents (splitFile file s) = (Split s).filter keeps := by
  simp [contents, splitFile, appendApps_eq, List.map_map, Function.comp_def]

/-! ## The segments of the search -/

theorem splitFrom_ne_nil (s : List Char) : splitFrom s ≠ [] := by
  induction s using splitFrom.induct with
  | case1 => simp [splitFrom]
  | case2 rest _ => simp [splitFrom]
  | case3 c cs h ih =>
      rw [splitFrom.eq_3 c cs h]
      cases hs : splitFrom cs <;> simp [consHead]

theorem splitFrom_sep (rest : List Char) :
    splitFrom (sepMid ++ rest) = [] :: splitFrom rest := by
  simp [sepMid, splitFrom]

theorem splitFrom_cons (c : Char) (cs : List Char) (h : ¬ sepMid <+: c :: cs) :
    splitFrom (c :: cs) = consHead c (splitFrom cs) := by
  apply splitFrom.eq_3
  intro rest hc hcs
  apply h
  subst hc hcs
  exact ⟨rest, rfl⟩

theorem intercalate_cons_cons (sep x y : List Char) (l : List (List Char)) :
    List.intercalate sep (x :: y :: l) = x ++ sep ++ List.intercalate sep (y :: l) := by
  simp [List.intercalate, List.intersperse]

theorem intercalate_consHead (sep : List Char) (c : Char) (l : List (List Char))
    (h : l ≠ []) :
    List.intercalate sep (consHead c l) = c :: List.intercalate sep l := by
  match l, h with
  | [x], _ => simp [consHead, List.intercalate]
  | x :: y :: l, _ => simp [consHead, intercalate_cons_cons]

theorem intercalate_splitFrom (s : List Char) :
    List.intercalate sepMid (splitFrom s) = s := by
  induction s using splitFrom.induct with
  | case1 => simp [splitFrom, List.intercalate]
  | case2 rest ih =>
      rw [splitFrom.eq_2]
      obtain ⟨y, l, hyl⟩ := List.exists_cons_of_ne_nil (splitFrom_ne_nil rest)
      rw [hyl] at ih ⊢
      rw [intercalate_cons_cons, ih]
      simp [sepMid]
  | case3 c cs h ih =>
      rw [splitFrom.eq_3 c cs h, intercalate_consHead _ _ _ (splitFrom_ne_nil cs), ih]

theorem not_prefix_append_sep (x rest : List Char) (hx : x ≠ [])
    (h1 : ¬ sepMid <:+: x) (h2 : ¬ sepOpen <:+ x) :
    ¬ sepMid <+: x ++ sepMid ++ rest := by
  intro hp
  match x, hx with
  | [a], _ => simp [sepMid] at hp
  | [a, b], _ => simp [sepMid] at hp
  | [a, b, c], _ => simp [sepMid] at hp
  | [a, b, c, d], _ =>
      simp [sepMid] at hp
      obtain ⟨ha, hb, hc, hd⟩ := hp
      subst ha hb hc hd
      exact h2 (List.suffix_refl _)
  | a :: b :: c :: d :: e :: x, _ =>
      apply h1
      simp [sepMid] at hp
      obtain ⟨ha, hb, hc, hd, he⟩ := hp
      subst ha hb hc hd he
      exact (List.prefix_append sepMid x).isInfix

theorem splitFrom_append_sep (x rest : List Char)
    (h1 : ¬ sepMid <:+: x) (h2 : ¬ sepOpen <:+ x) :
    splitFrom (x ++ sepMid ++ rest) = x :: splitFrom rest := by
  induction x with
  | nil => simpa using splitFrom_sep rest
  | cons c x ih =>
      have hp := not_prefix_append_sep (c :: x) rest (by simp) h1 h2
      have e : c :: x ++ sepMid ++ rest = c :: (x ++ sepMid ++ rest) := by simp
      rw [e] at hp ⊢
      rw [splitFrom_cons c _ hp, ih, consHead]
      · intro h; exact h1 (h.trans (List.suffix_cons c x).isInfix)
      · intro h; exact h2 (h.trans (List.suffix_cons c x))

theorem splitFrom_of_not_infix (s : List Char) (h : ¬ sepMid <:+: s) :
    splitFrom s = [s] := by
  induction s with
  | nil => simp [splitFrom]
  | cons c s ih =>
      rw [splitFrom_cons c s (fun hp => h hp.isInfix), ih, consHead]
      intro hs
      exact h (hs.trans (List.suffix_cons c s).isInfix)

theorem splitFrom_intercalate (l : List (List Char)) (hl : l ≠ []) (ht : Tight l) :
    splitFrom (List.intercalate sepMid l) = l := by
  induction l with
  | nil => exact absurd rfl hl
  | cons x l ih =>
      cases l with
      | nil =>
          have : List.intercalate sepMid [x] = x := by simp [List.intercalate]
          rw [this]
          exact splitFrom_of_not_infix x ht.1
      | cons y l =>
          rw [intercalate_cons_cons, splitFrom_append_sep x _ ht.1 (ht.2.1 (by simp)),
            ih (by simp) ht.2.2]

theorem splitFrom_head (s seg : List Char) (segs : List (List Char))
    (h : splitFrom s = seg :: segs) :
    ∃ rest, s = seg ++ rest ∧ (segs ≠ [] → sepMid <+: rest) := by
  have hi := intercalate_splitFrom s
  rw [h] at hi
  cases segs with
  | nil => exact ⟨[], by simpa [List.intercalate] using hi.symm, fun hne => absurd rfl hne⟩
  | cons y l =>
      rw [intercalate_cons_cons] at hi
      refine ⟨sepMid ++ List.intercalate sepMid (y :: l), ?_, fun _ => List.prefix_append _ _⟩
      rw [← hi]; simp

theorem tight_splitFrom (s : List Char) : Tight (splitFrom s) := by
  induction s using splitFrom.induct with
  | case1 => simp [splitFrom, Tight, sepMid]
  | case2 rest ih =>
      rw [splitFrom.eq_2]
      exact ⟨by simp [sepMid], fun _ => by simp [sepOpen], ih⟩
  | case3 c cs h ih =>
      rw [splitFrom.eq_3 c cs h]
      obtain ⟨seg, segs, hs⟩ := List.exists_cons_of_ne_nil (splitFrom_ne_nil cs)
      obtain ⟨rest, hcs, hrest⟩ := splitFrom_head cs seg segs hs
      rw [hs] at ih ⊢
      obtain ⟨i1, i2, i3⟩ := ih
      refine ⟨?_, ?_, i3⟩
      · intro hin
        rcases List.infix_cons_iff.mp hin with hp | hi
        · obtain ⟨t, ht⟩ := hp
          simp only [sepMid, List.cons_append, List.nil_append, List.cons.injEq] at ht
          obtain ⟨hc, hseg⟩ := ht
          exact h (t ++ rest) hc.symm (by rw [hcs, ← hseg]; simp)
        · exact i1 hi
      · intro hne hsuf
        rcases List.suffix_cons_iff.mp hsuf with he | hsf
        · simp only [sepOpen, List.cons.injEq] at he
          obtain ⟨hc, hseg⟩ := he
          obtain ⟨u, hu⟩ := hrest hne
          exact h ('-' :: '-' :: '-' :: '\n' :: u) hc.symm (by rw [hcs, ← hseg, ← hu]; simp [sepMid])
        · exact i2 hne hsf

theorem Split_of_prefix (rest : List Char) :
    Split (sepStart ++ rest) = [] :: splitFrom rest := by
  simp [sepStart, Split]

theorem Split_of_not_prefix (s : List Char) (h : ¬ sepStart <+: s) :
    Split s = splitFrom s := by
  apply Split.eq_2
  intro rest hs
  exact h ⟨rest, by rw [hs]; rfl⟩

theorem Split_cases (s : List Char) :
    (∃ rest, s = sepStart ++ rest ∧ Split s = [] :: splitFrom rest)
      ∨ (¬ sepStart <+: s ∧ Split s = splitFrom s) := by
  by_cases h : sepStart <+: s
  · obtain ⟨rest, hr⟩ := h
    exact Or.inl ⟨rest, hr.symm, by rw [← hr, Split_of_prefix]⟩
  · exact Or.inr ⟨h, Split_of_not_prefix s h⟩

theorem tight_Split (s : List Char) : Tight (Split s) := by
  rcases Split_cases s with ⟨rest, _, h⟩ | ⟨_, h⟩
  · rw [h]
    exact ⟨by simp [sepMid], fun _ => by simp [sepOpen], tight_splitFrom rest⟩
  · rw [h]; exact tight_splitFrom s

theorem tight_filter (p : List Char → Bool) (l : List (List Char)) (h : Tight l) :
    Tight (l.filter p) := by
  induction l with
  | nil => simpa using h
  | cons x l ih =>
      obtain ⟨h1, h2, h3⟩ := h
      by_cases hp : p x = true
      · rw [List.filter_cons_of_pos hp]
        refine ⟨h1, fun hne => h2 ?_, ih h3⟩
        intro hl; apply hne; simp [hl]
      · rw [List.filter_cons_of_neg hp]
        exact ih h3


/-! ## One file: the documents of a content -/

theorem keeps_eq_hasNonSpace : keeps = hasNonSpace := by
  funext s
  rw [Bool.eq_iff_iff, keeps_iff]
  simp [hasNonSpace]

theorem splitFile_eq (file : String) (s : List Char) :
    splitFile file s
      = ((Split s).filter hasNonSpace).map (fun app => { fileName := file, data := app }) := by
  simp [splitFile, appendApps_eq, keeps_eq_hasNonSpace]

theorem assemble_mid (x : List Char) (l : List (List Char)) :
    assemble x (l.map (fun seg => (sepMid, seg))) = List.intercalate sepMid (x :: l) := by
  induction l generalizing x with
  | nil => simp [assemble, List.intercalate]
  | cons y l ih =>
      rw [intercalate_cons_cons, ← ih y]
      simp [assemble]

theorem validSeps_mid (offset : Nat) (l : List (List Char)) :
    validSeps offset (l.map (fun seg => (sepMid, seg))) := by
  induction l generalizing offset with
  | nil => trivial
  | cons y l ih => exact ⟨Or.inl rfl, ih _⟩

/-- C1: on the separator-only content `---\n---\n` the per-file step emits one
document, `---\n`: the newline of the first separator is consumed by its
match, so the second separator is neither at offset 0 nor behind a newline
that is still available. -/
theorem separator_only_emits_document (file : String) :
    splitFile file "---\n---\n".toList = [{ fileName := file, data := "---\n".toList }] := by
  rfl

/-- C2: in `a\n---\n---\nb\n` the second separator line begins at offset 6,
right behind a newline, and is not consumed: it stays in the second
document. -/
theorem consecutive_separator_kept (file : String) :
    contents (splitFile file "a\n---\n---\nb\n".toList) = ["a".toList, "---\nb\n".toList] := by
  rfl

theorem filter_keeps_idem (l : List (List Char)) :
    (l.filter keeps).filter keeps = l.filter keeps := by
  simp [List.filter_filter]

theorem contents_rejoin (file : String) (docs : List (List Char))
    (ht : Tight docs) (hk : docs.filter keeps = docs)
    (hs : ¬ sepStart <+: List.intercalate sepMid docs) :
    contents (splitFile file (List.intercalate sepMid docs)) = docs := by
  rw [contents_splitFile, Split_of_not_prefix _ hs]
  by_cases hd : docs = []
  · subst hd
    rfl
  · rw [splitFrom_intercalate docs hd ht, hk]

/-- C3, the claim at `a\n---\nb`: the documents are `a` and `b`; joined with
`---\n` they give `a---\nb`, which is split into the single document
`a---\nb`. -/
theorem round_trip_fails :
    contents (splitFile "f" (List.intercalate sepStart
        (contents (splitFile "f" "a\n---\nb".toList))))
      ≠ contents (splitFile "f" "a\n---\nb".toList) := by
  decide

/-- C3, amended: when the documents emitted for a content are joined with the
full separator `\n---\n` between consecutive documents, and the joined text
does not begin with `---\n`, splitting the joined text emits exactly the same
document contents in the same order. -/
theorem round_trip (file : String) (s : List Char)
    (hs : ¬ sepStart <+: List.intercalate sepMid (contents (splitFile file s))) :
    contents (splitFile file (List.intercalate sepMid (contents (splitFile file s))))
      = contents (splitFile file s) := by
  apply contents_rejoin file _ _ _ hs
  · rw [contents_splitFile]
    exact tight_filter keeps _ (tight_Split s)
  · rw [contents_splitFile, filter_keeps_idem]

/-- C3, the amended claim at `---\na: 1\n---\n\n---\nb: 2\n`, whose documents are
`a: 1` and `b: 2\n`. -/
theorem round_trip_witness :
    (¬ sepStart <+: List.intercalate sepMid
        (contents (splitFile "f" "---\na: 1\n---\n\n---\nb: 2\n".toList)))
      ∧ contents (splitFile "f" (List.intercalate sepMid
          (contents (splitFile "f" "---\na: 1\n---\n\n---\nb: 2\n".toList))))
        = ["a: 1".toList, "b: 2\n".toList] :=
  ⟨by decide, round_trip "f" "---\na: 1\n---\n\n---\nb: 2\n".toList (by decide)⟩

/-- C4, the claim at `A = "a: 1\n"` and `B = "b: 2\n"`: both are non-blank,
end in a newline and hold no separator, and the first document emitted for
`---\na: 1\n---\nb: 2\n` is `a: 1` without the newline. -/
theorem two_documents_fails :
    (0 < (TrimSpace "a: 1\n".toList).length ∧ 0 < (TrimSpace "b: 2\n".toList).length
        ∧ noSeparator "a: 1\n".toList ∧ noSeparator "b: 2\n".toList)
      ∧ contents (splitFile "f" (sepStart ++ "a: 1\n".toList ++ sepStart ++ "b: 2\n".toList))
        ≠ ["a: 1\n".toList, "b: 2\n".toList] := by
  decide

/-- C4, amended: for texts `A = A0 ++ "\n"` and `B` that are non-blank and hold
no separator, the content `"---\n" ++ A ++ "---\n" ++ B` gives exactly two
documents: `A0`, which is `A` without its last newline, and then `B`. -/
theorem two_documents (file : String) (A0 B : List Char)
    (hA : 0 < (TrimSpace (A0 ++ ['\n'])).length) (hB : 0 < (TrimSpace B).length)
    (nA : noSeparator (A0 ++ ['\n'])) (nB : noSeparator B) :
    splitFile file (sepStart ++ (A0 ++ ['\n']) ++ sepStart ++ B)
      = [{ fileName := file, data := A0 }, { fileName := file, data := B }] := by
  have e : sepStart ++ (A0 ++ ['\n']) ++ sepStart ++ B = sepStart ++ (A0 ++ sepMid ++ B) := by
    simp [sepStart, sepMid]
  have h1 : ¬ sepMid <:+: A0 := fun h => nA.2 (h.trans (List.prefix_append A0 _).isInfix)
  have h2 : ¬ sepOpen <:+ A0 := by
    rintro ⟨t, ht⟩
    apply nA.2
    refine ⟨t, [], ?_⟩
    rw [← ht]
    simp [sepOpen, sepMid]
  have kA : keeps A0 = true := by
    rw [keeps_iff]
    obtain ⟨c, hc, hsp⟩ := (trimSpace_pos_iff _).mp hA
    rcases List.mem_append.mp hc with h | h
    · exact ⟨c, h, hsp⟩
    · rw [List.mem_singleton.mp h] at hsp
      exact absurd hsp (by decide)
  have kB : keeps B = true := by simpa [keeps] using hB
  rw [e, splitFile, appendApps_eq, Split_of_prefix, splitFrom_append_sep A0 B h1 h2,
    splitFrom_of_not_infix B nB.2]
  have k0 : keeps [] = false := by decide
  simp [List.filter, kA, kB, k0]

/-- C4, the amended claim at `A0 = "a: 1"` and `B = "b: 2\n"`. -/
theorem two_documents_witness :
    splitFile "/w/a.yaml" (sepStart ++ ("a: 1".toList ++ ['\n']) ++ sepStart ++ "b: 2\n".toList)
      = [{ fileName := "/w/a.yaml", data := "a: 1".toList },
         { fileName := "/w/a.yaml", data := "b: 2\n".toList }] :=
  two_documents "/w/a.yaml" "a: 1".toList "b: 2\n".toList (by decide) (by decide)
    (by decide) (by decide)

/-- C5: every content is `seg0 ++ sep1 ++ seg1 ++ ... ++ sepk ++ segk` where each
separator is `\n---\n`, or `---\n` at offset 0, and the documents emitted for
the content are the segments that hold a rune other than whitespace, unchanged
and in this order, each under the file name of the content. -/
theorem documents_are_segments (file : String) (s : List Char) :
    ∃ (seg0 : List Char) (parts : List (List Char × List Char)),
      s = assemble seg0 parts ∧ validSeps seg0.length parts ∧
      splitFile file s
        = ((seg0 :: parts.map Prod.snd).filter hasNonSpace).map
            (fun app => { fileName := file, data := app }) := by
  rcases Split_cases s with ⟨rest, hs, h⟩ | ⟨_, h⟩
  · obtain ⟨y, l, hyl⟩ := List.exists_cons_of_ne_nil (splitFrom_ne_nil rest)
    refine ⟨[], (sepStart, y) :: l.map (fun seg => (sepMid, seg)), ?_, ?_, ?_⟩
    · have hi := intercalate_splitFrom rest
      rw [hyl, ← assemble_mid] at hi
      rw [hs, ← hi]
      simp [assemble]
    · exact ⟨Or.inr ⟨rfl, rfl⟩, validSeps_mid _ l⟩
    · rw [splitFile_eq, h, hyl]
      simp [List.map_map, Function.comp_def]
  · obtain ⟨y, l, hyl⟩ := List.exists_cons_of_ne_nil (splitFrom_ne_nil s)
    refine ⟨y, l.map (fun seg => (sepMid, seg)), ?_, validSeps_mid _ l, ?_⟩
    · rw [assemble_mid, ← hyl, intercalate_splitFrom]
    · rw [splitFile_eq, h, hyl]
      simp [List.map_map, Function.comp_def]

/-- C6, the claim at the empty content: it holds no separator, and no document
is emitted for it. -/
theorem no_separator_fails :
    noSeparator [] ∧ contents (splitFile "f" []) ≠ [[]] := by
  decide

/-- C6, amended: a content that holds no separator (it does not begin with
`---\n` and `\n---\n` does not occur in it) and that is not blank gives exactly
one document, whose content is the whole content unchanged. -/
theorem no_separator_one_document (file : String) (s : List Char)
    (hn : noSeparator s) (hk : 0 < (TrimSpace s).length) :
    splitFile file s = [{ fileName := file, data := s }] := by
  have k : keeps s = true := by simpa [keeps] using hk
  rw [splitFile, appendApps_eq, Split_of_not_prefix s hn.1, splitFrom_of_not_infix s hn.2]
  simp [List.filter, k]

/-- C6, the amended claim at `key: ---nope\n`. -/
theorem no_separator_one_document_witness :
    splitFile "/w/k.yaml" "key: ---nope\n".toList
      = [{ fileName := "/w/k.yaml", data := "key: ---nope\n".toList }] :=
  no_separator_one_document "/w/k.yaml" "key: ---nope\n".toList (by decide) (by decide)

/-! ## The loop over the files -/

theorem loop_cons_usable (env : Env) (file : String) (files : List String)
    (appData : List inputData) (h : usable env file) :
    getResourcesLoop env (file :: files) appData
      = getResourcesLoop env files (appData ++ documentsOf env file) := by
  obtain ⟨h1, h2⟩ := h
  rw [getResourcesLoop]
  rcases hr : env.ReadFile file with ⟨data, e1⟩
  rcases ha : env.Abs file with ⟨file1, e2⟩
  rw [hr] at h1
  rw [ha] at h2
  simp only at h1 h2
  subst h1 h2
  simp only [documentsOf, hr, ha, splitFile, appendApps_eq, List.nil_append]

theorem loop_cons_failing (env : Env) (file : String) (files : List String)
    (appData : List inputData) (h : ¬ usable env file) :
    ∃ cause msg,
      getResourcesLoop env (file :: files) appData = ([], some (GoError.wrap cause msg)) ∧
      ((env.ReadFile file).2 = some cause
        ∨ ((env.ReadFile file).2 = none ∧ (env.Abs file).2 = some cause)) := by
  rw [getResourcesLoop]
  rcases hr : env.ReadFile file with ⟨data, e1⟩
  rcases ha : env.Abs file with ⟨file1, e2⟩
  cases e1 with
  | some err => exact ⟨err, _, rfl, Or.inl rfl⟩
  | none =>
      cases e2 with
      | some err => exact ⟨err, _, rfl, Or.inr ⟨rfl, rfl⟩⟩
      | none => exact absurd (by simp [usable, hr, ha]) h

theorem loop_all_usable (env : Env) (files : List String) (appData : List inputData)
    (h : ∀ f ∈ files, usable env f) :
    getResourcesLoop env files appData
      = (appData ++ files.flatMap (documentsOf env), none) := by
  induction files generalizing appData with
  | nil => simp [getResourcesLoop]
  | cons f files ih =>
      rw [loop_cons_usable env f files appData (h f (by simp)),
        ih _ (fun g hg => h g (by simp [hg]))]
      simp

theorem loop_first_failing (env : Env) (pre post : List String) (file : String)
    (appData : List inputData) (hpre : ∀ f ∈ pre, usable env f) (h : ¬ usable env file) :
    ∃ cause msg,
      getResourcesLoop env (pre ++ file :: post) appData
        = ([], some (GoError.wrap cause msg)) ∧
      ((env.ReadFile file).2 = some cause
        ∨ ((env.ReadFile file).2 = none ∧ (env.Abs file).2 = some cause)) := by
  induction pre generalizing appData with
  | nil => exact loop_cons_failing env file post appData h
  | cons f pre ih =>
      rw [List.cons_append, loop_cons_usable env f _ appData (hpre f (by simp))]
      exact ih _ (fun g hg => hpre g (by simp [hg]))

theorem usable_or_first_failing (env : Env) (files : List String) :
    (∀ f ∈ files, usable env f)
      ∨ ∃ pre file post, files = pre ++ file :: post ∧ (∀ f ∈ pre, usable env f)
          ∧ ¬ usable env file := by
  induction files with
  | nil => exact Or.inl (by simp)
  | cons f files ih =>
      by_cases hf : usable env f
      · rcases ih with h | ⟨pre, file, post, he, hp, hn⟩
        · exact Or.inl (by simpa [hf] using h)
        · refine Or.inr ⟨f :: pre, file, post, by rw [he]; rfl, ?_, hn⟩
          intro g hg
          rcases List.mem_cons.mp hg with rfl | hg
          · exact hf
          · exact hp g hg
      · exact Or.inr ⟨[], f, files, rfl, by simp, hf⟩

theorem success_iff_all_usable (env : Env) (files : List String) :
    (getResourcesFromFiles env files).2 = none ↔ ∀ f ∈ files, usable env f := by
  constructor
  · intro h
    rcases usable_or_first_failing env files with hall | ⟨pre, file, post, he, hp, hn⟩
    · exact hall
    · obtain ⟨cause, msg, hr, _⟩ := loop_first_failing env pre post file [] hp hn
      rw [getResourcesFromFiles, he, hr] at h
      exact absurd h (by simp)
  · intro h
    rw [getResourcesFromFiles, loop_all_usable env files [] h]

theorem success_eq (env : Env) (files : List String) (r : List inputData)
    (h : getResourcesFromFiles env files = (r, none)) :
    (∀ f ∈ files, usable env f) ∧ r = files.flatMap (documentsOf env) := by
  have hu := (success_iff_all_usable env files).mp (by rw [h])
  refine ⟨hu, ?_⟩
  rw [getResourcesFromFiles, loop_all_usable env files [] hu] at h
  simpa using (congrArg Prod.fst h).symm

/-- C7: when `getResourcesFromFiles` succeeds, the data of every returned
document is non-empty after `strings.TrimSpace`. -/
theorem documents_not_blank (env : Env) (files : List String) (r : List inputData)
    (h : getResourcesFromFiles env files = (r, none)) :
    ∀ d ∈ r, 0 < (TrimSpace d.data).length := by
  intro d hd
  rw [(success_eq env files r h).2, List.mem_flatMap] at hd
  obtain ⟨f, _, hdf⟩ := hd
  rw [documentsOf, splitFile, appendApps_eq] at hdf
  simp only [List.nil_append, List.mem_map, List.mem_filter] at hdf
  obtain ⟨app, ⟨_, hk⟩, rfl⟩ := hdf
  simpa [keeps] using hk

/-- C7 at three files of `sampleEnv`, for the second document returned. -/
theorem documents_not_blank_witness :
    getResourcesFromFiles sampleEnv ["a.yaml", "blank.yaml", "b.yaml"]
        = ([{ fileName := "/w/a.yaml", data := "a: 1".toList },
            { fileName := "/w/a.yaml", data := "b: 2\n".toList },
            { fileName := "/w/b.yaml", data := "c: 3\n".toList }], none)
      ∧ 0 < (TrimSpace "b: 2\n".toList).length :=
  ⟨by rfl, documents_not_blank sampleEnv ["a.yaml", "blank.yaml", "b.yaml"] _ (by rfl)
    { fileName := "/w/a.yaml", data := "b: 2\n".toList } (by decide)⟩

/-- C8: when `getResourcesFromFiles` succeeds on `A` and on `B`, its result on
`A ++ B` is the result on `A` followed by the result on `B`; and a successful
result is, file after file in list order, the documents of the file in the
order of the per-file step, each with the string returned by `filepath.Abs`
for that file as its `fileName`. -/
theorem append_files (env : Env) (A B : List String) (a b : List inputData)
    (hA : getResourcesFromFiles env A = (a, none))
    (hB : getResourcesFromFiles env B = (b, none)) :
    getResourcesFromFiles env (A ++ B) = (a ++ b, none)
      ∧ a = A.flatMap (fun f => splitFile (env.Abs f).1 (env.ReadFile f).1)
      ∧ ∀ f ∈ A, ∀ d ∈ splitFile (env.Abs f).1 (env.ReadFile f).1,
          d.fileName = (env.Abs f).1 := by
  obtain ⟨uA, ea⟩ := success_eq env A a hA
  obtain ⟨uB, eb⟩ := success_eq env B b hB
  refine ⟨?_, ea, ?_⟩
  · rw [getResourcesFromFiles, loop_all_usable env (A ++ B) []
      (fun f hf => (List.mem_append.mp hf).elim (uA f) (uB f)), ea, eb]
    simp
  · intro f _ d hd
    rw [splitFile, appendApps_eq] at hd
    simp only [List.nil_append, List.mem_map] at hd
    obtain ⟨app, _, rfl⟩ := hd
    rfl

/-- C8 at `A = [a.yaml, blank.yaml]` and `B = [b.yaml]` in `sampleEnv`. -/
theorem append_files_witness :
    getResourcesFromFiles sampleEnv (["a.yaml", "blank.yaml"] ++ ["b.yaml"])
      = ([{ fileName := "/w/a.yaml", data := "a: 1".toList },
          { fileName := "/w/a.yaml", data := "b: 2\n".toList }]
          ++ [{ fileName := "/w/b.yaml", data := "c: 3\n".toList }], none) :=
  (append_files sampleEnv ["a.yaml", "blank.yaml"] ["b.yaml"] _ _ (by rfl) (by rfl)).1

/-- C9: when some file of the list cannot be read or cannot be resolved,
`getResourcesFromFiles` returns no documents together with an error, and the
error wraps the cause reported for the first such file of the list: its read
error, or its path-resolution error when the file could be read. -/
theorem first_failure_aborts (env : Env) (files : List String)
    (h : ∃ f ∈ files, ¬ usable env f) :
    ∃ pre file post cause msg,
      files = pre ++ file :: post ∧ (∀ f ∈ pre, usable env f) ∧ ¬ usable env file ∧
      getResourcesFromFiles env files = ([], some (GoError.wrap cause msg)) ∧
      ((env.ReadFile file).2 = some cause
        ∨ ((env.ReadFile file).2 = none ∧ (env.Abs file).2 = some cause)) := by
  rcases usable_or_first_failing env files with hall | ⟨pre, file, post, he, hp, hn⟩
  · obtain ⟨f, hf, hnf⟩ := h
    exact absurd (hall f hf) hnf
  · obtain ⟨cause, msg, hr, hc⟩ := loop_first_failing env pre post file [] hp hn
    exact ⟨pre, file, post, cause, msg, he, hp, hn, by rw [getResourcesFromFiles, he, hr], hc⟩

/-- C9 at a list of `sampleEnv` whose second file is missing. -/
theorem first_failure_aborts_witness :
    ∃ pre file post cause msg,
      ["a.yaml", "missing.yaml", "b.yaml"] = pre ++ file :: post
        ∧ (∀ f ∈ pre, usable sampleEnv f) ∧ ¬ usable sampleEnv file ∧
      getResourcesFromFiles sampleEnv ["a.yaml", "missing.yaml", "b.yaml"]
        = ([], some (GoError.wrap cause msg)) ∧
      ((sampleEnv.ReadFile file).2 = some cause
        ∨ ((sampleEnv.ReadFile file).2 = none ∧ (sampleEnv.Abs file).2 = some cause)) :=
  first_failure_aborts sampleEnv ["a.yaml", "missing.yaml", "b.yaml"]
    ⟨"missing.yaml", by decide, by decide⟩

/-- C10: `getResourcesFromFiles` returns a nil error exactly when every file of
the list can be read and resolved; the result may then be empty. -/
theorem error_iff_some_file_fails (env : Env) (files : List String) :
    ((getResourcesFromFiles env files).2 = none ↔ ∀ f ∈ files, usable env f)
      ∧ ((∀ f ∈ files, usable env f) →
          getResourcesFromFiles env files = (files.flatMap (documentsOf env), none)) := by
  refine ⟨success_iff_all_usable env files, fun h => ?_⟩
  rw [getResourcesFromFiles, loop_all_usable env files [] h]
  simp

/-- C10 at a list of separator-only files: success with no document. -/
theorem error_iff_some_file_fails_witness :
    getResourcesFromFiles sampleEnv ["blank.yaml", "blank.yaml"] = ([], none) :=
  (error_iff_some_file_fails sampleEnv ["blank.yaml", "blank.yaml"]).2 (by decide)

/-! ## The loop over the input paths -/

theorem collect_cons_proceeds (fs : FileSystem) (path : String) (paths files : List String)
    (h : proceeds fs path) :
    collectFiles fs (path :: paths) files
      = collectFiles fs paths (files ++ contribution fs path) := by
  obtain ⟨h1, h2⟩ := h
  rw [collectFiles, contribution]
  rcases hs : fs.Stat path with ⟨fileInfo, e⟩
  rw [hs] at h1 h2
  simp only at h1 h2
  subst h1
  by_cases hd : fileInfo.IsDir = true
  · obtain ⟨g1, g2⟩ := h2 hd
    rcases hy : fs.Glob (fs.Join path "*.yml") with ⟨ymlFiles, e1⟩
    rcases hz : fs.Glob (fs.Join path "*.yaml") with ⟨yamlFiles, e2⟩
    rw [hy] at g1
    rw [hz] at g2
    simp only at g1 g2
    subst g1 g2
    simp [hd]
  · simp [hd]

theorem collect_cons_stat_fails (fs : FileSystem) (path : String) (paths files : List String)
    (cause : GoError) (h : (fs.Stat path).2 = some cause) :
    collectFiles fs (path :: paths) files
      = ([], some (GoError.wrap cause ("can't get file info about " ++ path))) := by
  rw [collectFiles]
  rcases hs : fs.Stat path with ⟨fileInfo, e⟩
  rw [hs] at h
  simp only at h
  subst h
  rfl

theorem collect_cons_stops (fs : FileSystem) (path : String) (paths files : List String)
    (h : ¬ proceeds fs path) :
    ∃ cause msg, collectFiles fs (path :: paths) files = ([], some (GoError.wrap cause msg)) := by
  rw [collectFiles]
  rcases hs : fs.Stat path with ⟨fileInfo, e⟩
  cases e with
  | some err => exact ⟨err, _, rfl⟩
  | none =>
      by_cases hd : fileInfo.IsDir = true
      · rcases hy : fs.Glob (fs.Join path "*.yml") with ⟨ymlFiles, e1⟩
        cases e1 with
        | some err => exact ⟨err, "can't list *.yml files in " ++ path, by simp [hd, hy]⟩
        | none =>
            rcases hz : fs.Glob (fs.Join path "*.yaml") with ⟨yamlFiles, e2⟩
            cases e2 with
            | some err =>
                exact ⟨err, "can't list *.yaml files in " ++ path, by simp [hd, hy, hz]⟩
            | none => exact absurd (by simp [proceeds, hs, hy, hz]) h
      · exact absurd (by simp [proceeds, hs, hd]) h

theorem collect_all_proceed (fs : FileSystem) (paths files : List String)
    (h : ∀ p ∈ paths, proceeds fs p) :
    collectFiles fs paths files = (files ++ paths.flatMap (contribution fs), none) := by
  induction paths generalizing files with
  | nil => simp [collectFiles]
  | cons p paths ih =>
      rw [collect_cons_proceeds fs p paths files (h p (by simp)),
        ih _ (fun q hq => h q (by simp [hq]))]
      simp

theorem collect_prefix_proceeds (fs : FileSystem) (pre rest files : List String)
    (h : ∀ p ∈ pre, proceeds fs p) :
    collectFiles fs (pre ++ rest) files
      = collectFiles fs rest (files ++ pre.flatMap (contribution fs)) := by
  induction pre generalizing files with
  | nil => simp
  | cons p pre ih =>
      rw [List.cons_append, collect_cons_proceeds fs p _ files (h p (by simp)),
        ih _ (fun q hq => h q (by simp [hq]))]
      simp

theorem all_or_first_not (P : String → Prop) (paths : List String) :
    (∀ p ∈ paths, P p)
      ∨ ∃ pre path post, paths = pre ++ path :: post ∧ (∀ p ∈ pre, P p) ∧ ¬ P path := by
  induction paths with
  | nil => exact Or.inl (by simp)
  | cons q paths ih =>
      by_cases hq : P q
      · rcases ih with h | ⟨pre, path, post, he, hp, hn⟩
        · exact Or.inl (by simpa [hq] using h)
        · refine Or.inr ⟨q :: pre, path, post, by rw [he]; rfl, ?_, hn⟩
          intro g hg
          rcases List.mem_cons.mp hg with rfl | hg
          · exact hq
          · exact hp g hg
      · exact Or.inr ⟨[], q, paths, rfl, by simp, hq⟩

theorem collect_none_iff (fs : FileSystem) (paths : List String) :
    (collectFiles fs paths []).2 = none ↔ ∀ p ∈ paths, proceeds fs p := by
  constructor
  · intro h
    rcases all_or_first_not (proceeds fs) paths with hall | ⟨pre, path, post, he, hp, hn⟩
    · exact hall
    · obtain ⟨cause, msg, hr⟩ := collect_cons_stops fs path post
        ([] ++ pre.flatMap (contribution fs)) hn
      rw [he, collect_prefix_proceeds fs pre _ [] hp, hr] at h
      exact absurd h (by simp)
  · intro h
    rw [collect_all_proceed fs paths [] h]

theorem getAll_of_collect (fs : FileSystem) (paths files : List String)
    (h : collectFiles fs paths [] = (files, none)) :
    getAllYAMLFiles fs paths
      = if files.length = 0 then
          ([], some (GoError.base "no *.yml or *.yaml files were found"))
        else (files, none) := by
  rw [getAllYAMLFiles, h]

theorem getAll_of_collect_error (fs : FileSystem) (paths files : List String) (err : GoError)
    (h : collectFiles fs paths [] = (files, some err)) :
    getAllYAMLFiles fs paths = ([], some err) := by
  rw [getAllYAMLFiles, h]

theorem getAll_success (fs : FileSystem) (paths r : List String)
    (h : getAllYAMLFiles fs paths = (r, none)) :
    (∀ p ∈ paths, proceeds fs p) ∧ r = paths.flatMap (contribution fs) ∧ r ≠ [] := by
  rcases hc : collectFiles fs paths [] with ⟨files, e⟩
  cases e with
  | some err =>
      rw [getAll_of_collect_error fs paths files err hc] at h
      exact absurd (congrArg Prod.snd h) (by simp)
  | none =>
      have hp := (collect_none_iff fs paths).mp (by rw [hc])
      rw [collect_all_proceed fs paths [] hp] at hc
      have hf : files = paths.flatMap (contribution fs) := by
        simpa using (congrArg Prod.fst hc).symm
      rw [getAll_of_collect fs paths files (by rw [collect_all_proceed fs paths [] hp, hf]; simp)] at h
      by_cases h0 : files.length = 0
      · rw [if_pos h0] at h
        exact absurd (congrArg Prod.snd h) (by simp)
      · rw [if_neg h0] at h
        have hr : files = r := congrArg Prod.fst h
        subst hr
        exact ⟨hp, hf, fun hnil => h0 (by simp [hnil])⟩

theorem getAll_of_proceed (fs : FileSystem) (paths : List String)
    (hp : ∀ p ∈ paths, proceeds fs p) (hne : paths.flatMap (contribution fs) ≠ []) :
    getAllYAMLFiles fs paths = (paths.flatMap (contribution fs), none) := by
  have hc : collectFiles fs paths [] = (paths.flatMap (contribution fs), none) := by
    rw [collect_all_proceed fs paths [] hp, List.nil_append]
  rw [getAll_of_collect fs paths _ hc, if_neg (fun h0 => hne (List.length_eq_zero.mp h0))]

/-! ## The resolved file list -/

/-- C11: when `getAllYAMLFiles` succeeds, its list is the concatenation, in
input order, of what each path contributes (for a directory the matches of
`*.yml` and then those of `*.yaml`, for any other path the path itself); and
when it succeeds on `P` and on `Q`, its result on `P ++ Q` is the result on
`P` followed by the result on `Q`. -/
theorem resolve_append (fs : FileSystem) (P Q p q : List String)
    (hP : getAllYAMLFiles fs P = (p, none)) (hQ : getAllYAMLFiles fs Q = (q, none)) :
    getAllYAMLFiles fs (P ++ Q) = (p ++ q, none)
      ∧ p = P.flatMap (fun path =>
          if (fs.Stat path).1.IsDir then
            (fs.Glob (fs.Join path "*.yml")).1 ++ (fs.Glob (fs.Join path "*.yaml")).1
          else [path]) := by
  obtain ⟨uP, eP, nP⟩ := getAll_success fs P p hP
  obtain ⟨uQ, eQ, _⟩ := getAll_success fs Q q hQ
  refine ⟨?_, eP⟩
  have hne : (P ++ Q).flatMap (contribution fs) ≠ [] := by
    rw [List.flatMap_append, ← eP, ← eQ]
    intro h
    exact nP (List.append_eq_nil.mp h).1
  rw [getAll_of_proceed fs (P ++ Q)
    (fun x hx => (List.mem_append.mp hx).elim (uP x) (uQ x)) hne,
    List.flatMap_append, ← eP, ← eQ]

/-- C11 at `P = [conf]` and `Q = [x.txt]` of `sampleFS`. -/
theorem resolve_append_witness :
    getAllYAMLFiles sampleFS (["conf"] ++ ["x.txt"])
      = (["conf/a.yml", "conf/sub.yml", "conf/b.yaml"] ++ ["x.txt"], none) :=
  (resolve_append sampleFS ["conf"] ["x.txt"] _ _ (by rfl) (by rfl)).1

/-- C12: the directory `c*f` of `patternFS` holds one entry matching `*.yml`
and none matching `*.yaml`, but `getAllYAMLFiles` returns three paths for it:
the directory name goes into the pattern of `filepath.Glob` as it is, and the
two files of the directory `conf` are listed as well. -/
theorem pattern_directory_lists_other :
    getAllYAMLFiles patternFS ["c*f"]
        = (["c*f/own.yml", "conf/other.yml", "conf/other.yaml"], none)
      ∧ (patternFS.Stat "c*f").2 = none ∧ (patternFS.Stat "c*f").1.IsDir = true
      ∧ ¬ "c*f/".toList <+: "conf/other.yml".toList
      ∧ ¬ "c*f/".toList <+: "conf/other.yaml".toList := by
  decide

/-- C13: for a path whose `os.Stat` succeeds and that is not a directory,
`getAllYAMLFiles` on the one-element list succeeds and returns the path
itself, whatever its extension. -/
theorem explicit_file_kept (fs : FileSystem) (F : String)
    (hs : (fs.Stat F).2 = none) (hd : (fs.Stat F).1.IsDir = false) :
    getAllYAMLFiles fs [F] = ([F], none) := by
  have hp : ∀ p ∈ [F], proceeds fs p := by
    intro p hp
    rw [List.mem_singleton.mp hp]
    exact ⟨hs, fun h => by rw [hd] at h; exact absurd h (by decide)⟩
  have hc : [F].flatMap (contribution fs) = [F] := by
    simp [contribution, hd]
  have h := getAll_of_proceed fs [F] hp (by rw [hc]; simp)
  rw [hc] at h
  exact h

/-- C13 at the regular file `x.txt` of `sampleFS`. -/
theorem explicit_file_kept_witness :
    getAllYAMLFiles sampleFS ["x.txt"] = (["x.txt"], none) :=
  explicit_file_kept sampleFS "x.txt" (by decide) (by decide)

/-- C14, the claim at `[bad[]` of `sampleFS`: the stat of the directory
succeeds and nothing is gathered, but its listing fails, and the error
returned is that listing error and not the no-files-found error. -/
theorem listing_error_instead :
    (∀ p ∈ ["bad["], (sampleFS.Stat p).2 = none)
      ∧ ["bad["].flatMap (contribution sampleFS) = []
      ∧ getAllYAMLFiles sampleFS ["bad["]
        = ([], some (GoError.wrap (GoError.base "syntax error in pattern")
            "can't list *.yml files in bad["))
      ∧ getAllYAMLFiles sampleFS ["bad["]
        ≠ ([], some (GoError.base "no *.yml or *.yaml files were found")) := by
  decide

/-- C14, amended: when every path of the list stats successfully, both
listings of every directory of the list succeed, and the paths contribute
nothing (the list is empty, or holds only directories without a match),
`getAllYAMLFiles` returns no list and the error
`no *.yml or *.yaml files were found`; and every successful result is a
non-empty list. -/
theorem no_files_found (fs : FileSystem) (paths : List String) :
    ((∀ p ∈ paths, (fs.Stat p).2 = none) →
      (∀ p ∈ paths, (fs.Stat p).1.IsDir = true →
        (fs.Glob (fs.Join p "*.yml")).2 = none ∧ (fs.Glob (fs.Join p "*.yaml")).2 = none) →
      paths.flatMap (fun path =>
          if (fs.Stat path).1.IsDir then
            (fs.Glob (fs.Join path "*.yml")).1 ++ (fs.Glob (fs.Join path "*.yaml")).1
          else [path]) = [] →
        getAllYAMLFiles fs paths
          = ([], some (GoError.base "no *.yml or *.yaml files were found")))
      ∧ (∀ r, getAllYAMLFiles fs paths = (r, none) → r ≠ []) := by
  refine ⟨fun hs hg he => ?_, fun r hr => (getAll_success fs paths r hr).2.2⟩
  have hp : ∀ p ∈ paths, proceeds fs p := fun p hm => ⟨hs p hm, hg p hm⟩
  have hc : collectFiles fs paths [] = ([], none) := by
    rw [collect_all_proceed fs paths [] hp, List.nil_append]
    exact congrArg (fun l => (l, (none : Option GoError))) he
  rw [getAll_of_collect fs paths [] hc]
  rfl

/-- C14, the amended claim at the empty input list and at a list that holds
the directory `empty` of `sampleFS`, which has no match, twice. -/
theorem no_files_found_witness :
    getAllYAMLFiles sampleFS []
        = ([], some (GoError.base "no *.yml or *.yaml files were found"))
      ∧ getAllYAMLFiles sampleFS ["empty", "empty"]
        = ([], some (GoError.base "no *.yml or *.yaml files were found")) :=
  ⟨(no_files_found sampleFS []).1 (by decide) (by decide) (by rfl),
   (no_files_found sampleFS ["empty", "empty"]).1 (by decide) (by decide) (by rfl)⟩

theorem getAll_first_stat_failure (fs : FileSystem) (pre post : List String) (path : String)
    (cause : GoError) (hpre : ∀ p ∈ pre, proceeds fs p) (h : (fs.Stat path).2 = some cause) :
    getAllYAMLFiles fs (pre ++ path :: post)
      = ([], some (GoError.wrap cause ("can't get file info about " ++ path))) := by
  have hc : collectFiles fs (pre ++ path :: post) []
      = ([], some (GoError.wrap cause ("can't get file info about " ++ path))) := by
    rw [collect_prefix_proceeds fs pre _ [] hpre, collect_cons_stat_fails fs path post _ cause h]
  exact getAll_of_collect_error fs _ _ _ hc

theorem getAll_fails_of_not_proceeds (fs : FileSystem) (paths : List String)
    (h : ∃ p ∈ paths, ¬ proceeds fs p) :
    (getAllYAMLFiles fs paths).1 = [] ∧ (getAllYAMLFiles fs paths).2 ≠ none := by
  rcases hc : collectFiles fs paths [] with ⟨files, e⟩
  cases e with
  | some err =>
      rw [getAll_of_collect_error fs paths files err hc]
      exact ⟨rfl, by simp⟩
  | none =>
      obtain ⟨p, hp, hn⟩ := h
      exact absurd ((collect_none_iff fs paths).mp (by rw [hc]) p hp) hn

/-- C15, the claim at `[bad[, missing]` of `sampleFS`: the stat of `missing`
fails, but the listing of the directory `bad[` in front of it fails first, and
the error returned is that listing error, which is no path-access error. -/
theorem stat_failure_other_error :
    (∃ p ∈ ["bad[", "missing"], (sampleFS.Stat p).2 ≠ none)
      ∧ getAllYAMLFiles sampleFS ["bad[", "missing"]
        = ([], some (GoError.wrap (GoError.base "syntax error in pattern")
            "can't list *.yml files in bad["))
      ∧ ¬ ∃ p cause, (getAllYAMLFiles sampleFS ["bad[", "missing"]).2
          = some (GoError.wrap cause ("can't get file info about " ++ p)) := by
  refine ⟨⟨"missing", by decide, by decide⟩, by rfl, ?_⟩
  rintro ⟨p, cause, h⟩
  have e : (getAllYAMLFiles sampleFS ["bad[", "missing"]).2
      = some (GoError.wrap (GoError.base "syntax error in pattern")
          "can't list *.yml files in bad[") := by rfl
  rw [e] at h
  injection h with h
  injection h with _ hm
  have hd := congrArg String.data hm
  simp at hd

theorem collect_cons_yml_fails (fs : FileSystem) (path : String) (paths files : List String)
    (cause : GoError) (hs : (fs.Stat path).2 = none) (hd : (fs.Stat path).1.IsDir = true)
    (h : (fs.Glob (fs.Join path "*.yml")).2 = some cause) :
    collectFiles fs (path :: paths) files
      = ([], some (GoError.wrap cause ("can't list *.yml files in " ++ path))) := by
  rw [collectFiles]
  rcases hst : fs.Stat path with ⟨fileInfo, e⟩
  rcases hy : fs.Glob (fs.Join path "*.yml") with ⟨ymlFiles, e1⟩
  rw [hst] at hs hd
  rw [hy] at h
  simp only at hs hd h
  subst hs h
  simp [hd, hy]

theorem collect_cons_yaml_fails (fs : FileSystem) (path : String) (paths files : List String)
    (cause : GoError) (hs : (fs.Stat path).2 = none) (hd : (fs.Stat path).1.IsDir = true)
    (h1 : (fs.Glob (fs.Join path "*.yml")).2 = none)
    (h2 : (fs.Glob (fs.Join path "*.yaml")).2 = some cause) :
    collectFiles fs (path :: paths) files
      = ([], some (GoError.wrap cause ("can't list *.yaml files in " ++ path))) := by
  rw [collectFiles]
  rcases hst : fs.Stat path with ⟨fileInfo, e⟩
  rcases hy : fs.Glob (fs.Join path "*.yml") with ⟨ymlFiles, e1⟩
  rcases hz : fs.Glob (fs.Join path "*.yaml") with ⟨yamlFiles, e2⟩
  rw [hst] at hs hd
  rw [hy] at h1
  rw [hz] at h2
  simp only at hs hd h1 h2
  subst hs h1 h2
  simp [hd, hy, hz]

theorem getAll_first_yml_failure (fs : FileSystem) (pre post : List String) (path : String)
    (cause : GoError) (hpre : ∀ p ∈ pre, proceeds fs p)
    (hs : (fs.Stat path).2 = none) (hd : (fs.Stat path).1.IsDir = true)
    (h : (fs.Glob (fs.Join path "*.yml")).2 = some cause) :
    getAllYAMLFiles fs (pre ++ path :: post)
      = ([], some (GoError.wrap cause ("can't list *.yml files in " ++ path))) := by
  have hc : collectFiles fs (pre ++ path :: post) []
      = ([], some (GoError.wrap cause ("can't list *.yml files in " ++ path))) := by
    rw [collect_prefix_proceeds fs pre _ [] hpre,
      collect_cons_yml_fails fs path post _ cause hs hd h]
  exact getAll_of_collect_error fs _ _ _ hc

theorem getAll_first_yaml_failure (fs : FileSystem) (pre post : List String) (path : String)
    (cause : GoError) (hpre : ∀ p ∈ pre, proceeds fs p)
    (hs : (fs.Stat path).2 = none) (hd : (fs.Stat path).1.IsDir = true)
    (h1 : (fs.Glob (fs.Join path "*.yml")).2 = none)
    (h2 : (fs.Glob (fs.Join path "*.yaml")).2 = some cause) :
    getAllYAMLFiles fs (pre ++ path :: post)
      = ([], some (GoError.wrap cause ("can't list *.yaml files in " ++ path))) := by
  have hc : collectFiles fs (pre ++ path :: post) []
      = ([], some (GoError.wrap cause ("can't list *.yaml files in " ++ path))) := by
    rw [collect_prefix_proceeds fs pre _ [] hpre,
      collect_cons_yaml_fails fs path post _ cause hs hd h1 h2]
  exact getAll_of_collect_error fs _ _ _ hc

/-- C15, amended: when the list holds a path whose `os.Stat` fails,
`getAllYAMLFiles` returns no list together with an error, whatever the earlier
paths contributed. There is a first path of the list at which the loop stops
(every path in front of it passes: its stat and, for a directory, its two
listings succeed), and the error is the one of that path: when its stat fails,
the stat error wrapped with `can't get file info about <path>`; when it is a
directory whose `*.yml` listing fails, that listing error wrapped with
`can't list *.yml files in <path>`; when only its `*.yaml` listing fails, that
listing error wrapped with `can't list *.yaml files in <path>`. -/
theorem stat_failure_aborts (fs : FileSystem) (paths : List String)
    (h : ∃ p ∈ paths, (fs.Stat p).2 ≠ none) :
    (getAllYAMLFiles fs paths).1 = [] ∧ (getAllYAMLFiles fs paths).2 ≠ none
      ∧ (∃ pre path post, paths = pre ++ path :: post ∧ (∀ p ∈ pre, proceeds fs p)
          ∧ ¬ proceeds fs path)
      ∧ ∀ pre path post cause, paths = pre ++ path :: post → (∀ p ∈ pre, proceeds fs p) →
          ((fs.Stat path).2 = some cause →
            getAllYAMLFiles fs paths
              = ([], some (GoError.wrap cause ("can't get file info about " ++ path))))
          ∧ ((fs.Stat path).2 = none → (fs.Stat path).1.IsDir = true →
              (fs.Glob (fs.Join path "*.yml")).2 = some cause →
            getAllYAMLFiles fs paths
              = ([], some (GoError.wrap cause ("can't list *.yml files in " ++ path))))
          ∧ ((fs.Stat path).2 = none → (fs.Stat path).1.IsDir = true →
              (fs.Glob (fs.Join path "*.yml")).2 = none →
              (fs.Glob (fs.Join path "*.yaml")).2 = some cause →
            getAllYAMLFiles fs paths
              = ([], some (GoError.wrap cause ("can't list *.yaml files in " ++ path)))) := by
  obtain ⟨p, hp, hn⟩ := h
  obtain ⟨h1, h2⟩ := getAll_fails_of_not_proceeds fs paths ⟨p, hp, fun hpr => hn hpr.1⟩
  refine ⟨h1, h2, ?_, ?_⟩
  · rcases all_or_first_not (proceeds fs) paths with hall | hex
    · exact absurd (hall p hp).1 hn
    · exact hex
  · intro pre path post cause he hpre
    subst he
    exact ⟨getAll_first_stat_failure fs pre post path cause hpre,
      getAll_first_yml_failure fs pre post path cause hpre,
      getAll_first_yaml_failure fs pre post path cause hpre⟩

/-- C15, the amended claim at `[conf, missing, x.txt]` of `sampleFS`. -/
theorem stat_failure_aborts_witness :
    getAllYAMLFiles sampleFS ["conf", "missing", "x.txt"]
      = ([], some (GoError.wrap (GoError.base "stat missing: no such file or directory")
          "can't get file info about missing")) :=
  ((stat_failure_aborts sampleFS ["conf", "missing", "x.txt"]
    ⟨"missing", by decide, by decide⟩).2.2.2 ["conf"] "missing" ["x.txt"] _ rfl
    (by decide)).1 (by rfl)

/-- C16: for the directory `conf` of `sampleFS`, which holds a subdirectory
named `sub.yml`, `getAllYAMLFiles` succeeds and its list holds `conf/sub.yml`,
a directory and no regular file: the matches of a listing are not examined. -/
theorem directory_retained :
    getAllYAMLFiles sampleFS ["conf"]
        = (["conf/a.yml", "conf/sub.yml", "conf/b.yaml"], none)
      ∧ (sampleFS.Stat "conf/sub.yml").2 = none
      ∧ (sampleFS.Stat "conf/sub.yml").1.IsDir = true
      ∧ (sampleFS.Stat "conf/sub.yml").1.IsRegular = false := by
  decide

/-- C17, the claim at `[x.txt, x.txt]` of `sampleFS`: the call succeeds and
`x.txt` occurs twice in its list. -/
theorem duplicates_kept :
    getAllYAMLFiles sampleFS ["x.txt", "x.txt"] = (["x.txt", "x.txt"], none)
      ∧ ¬ (getAllYAMLFiles sampleFS ["x.txt", "x.txt"]).1.Nodup := by
  decide

/-- C17, amended: when `getAllYAMLFiles` succeeds, nothing is removed from its
list: a path occurs in it as many times as the input paths contribute it, one
time for each occurrence of a path that is no directory and one time for each
match in a listing of a directory. -/
theorem occurrences_kept (fs : FileSystem) (paths r : List String)
    (h : getAllYAMLFiles fs paths = (r, none)) (x : String) :
    r.count x = (paths.map (fun path =>
        if (fs.Stat path).1.IsDir then
          (fs.Glob (fs.Join path "*.yml")).1.count x
            + (fs.Glob (fs.Join path "*.yaml")).1.count x
        else if path = x then 1 else 0)).sum := by
  rw [(getAll_success fs paths r h).2.1]
  clear h
  induction paths with
  | nil => simp
  | cons p paths ih =>
      rw [List.flatMap_cons, List.count_append, ih, List.map_cons, List.sum_cons]
      congr 1
      unfold contribution
      by_cases hd : (fs.Stat p).1.IsDir = true
      · simp [hd, List.count_append]
      · rw [if_neg hd, if_neg hd]
        by_cases hx : p = x
        · simp [hx]
        · rw [if_neg hx, List.count_eq_zero]
          intro hm
          exact hx (List.mem_singleton.mp hm).symm

/-- C17, the amended claim at `[x.txt, conf, x.txt]` of `sampleFS`: `x.txt`
occurs twice. -/
theorem occurrences_kept_witness :
    getAllYAMLFiles sampleFS ["x.txt", "conf", "x.txt"]
        = (["x.txt", "conf/a.yml", "conf/sub.yml", "conf/b.yaml", "x.txt"], none)
      ∧ ["x.txt", "conf/a.yml", "conf/sub.yml", "conf/b.yaml", "x.txt"].count "x.txt" = 2 :=
  ⟨by rfl, occurrences_kept sampleFS ["x.txt", "conf", "x.txt"] _ (by rfl) "x.txt"⟩

/-! ## The errors of the two functions -/

theorem loop_prefix_usable (env : Env) (pre rest : List String) (appData : List inputData)
    (h : ∀ f ∈ pre, usable env f) :
    getResourcesLoop env (pre ++ rest) appData
      = getResourcesLoop env rest (appData ++ pre.flatMap (documentsOf env)) := by
  induction pre generalizing appData with
  | nil => simp
  | cons f pre ih =>
      rw [List.cons_append, loop_cons_usable env f _ appData (h f (by simp)),
        ih _ (fun g hg => h g (by simp [hg]))]
      simp

theorem loop_cons_read_fails (env : Env) (file : String) (files : List String)
    (appData : List inputData) (cause : GoError) (h : (env.ReadFile file).2 = some cause) :
    getResourcesLoop env (file :: files) appData
      = ([], some (GoError.wrap cause "file reading failed")) := by
  rw [getResourcesLoop]
  rcases hr : env.ReadFile file with ⟨data, e⟩
  rw [hr] at h
  simp only at h
  subst h
  rfl

theorem loop_cons_abs_fails (env : Env) (file : String) (files : List String)
    (appData : List inputData) (cause : GoError) (h1 : (env.ReadFile file).2 = none)
    (h2 : (env.Abs file).2 = some cause) :
    getResourcesLoop env (file :: files) appData
      = ([], some (GoError.wrap cause
          ("cannot determine the absolute file path of " ++ env.Quote (env.Abs file).1))) := by
  rw [getResourcesLoop]
  rcases hr : env.ReadFile file with ⟨data, e1⟩
  rcases ha : env.Abs file with ⟨file1, e2⟩
  rw [hr] at h1
  rw [ha] at h2
  simp only at h1 h2
  subst h1 h2
  rfl

theorem mem_result (env : Env) (files : List String) (d : inputData)
    (h : d ∈ (getResourcesFromFiles env files).1) :
    ∃ f ∈ files, d ∈ documentsOf env f := by
  rcases usable_or_first_failing env files with hall | ⟨pre, file, post, he, hp, hn⟩
  · rw [getResourcesFromFiles, loop_all_usable env files [] hall] at h
    simpa [List.mem_flatMap] using h
  · obtain ⟨cause, msg, hr, _⟩ := loop_first_failing env pre post file [] hp hn
    rw [getResourcesFromFiles, he, hr] at h
    exact absurd h (List.not_mem_nil d)

theorem tight_mem (l : List (List Char)) (x : List Char) (ht : Tight l) (hx : x ∈ l) :
    ¬ sepMid <:+: x := by
  induction l with
  | nil => exact absurd hx (List.not_mem_nil x)
  | cons y l ih =>
      rcases List.mem_cons.mp hx with rfl | hm
      · exact ht.1
      · exact ih ht.2.2 hm

/-- C18: for the missing file `missing.yaml` of `sampleEnv`, behind a file that
was read, the error wraps the cause reported by `ioutil.ReadFile`, and its
context message is the fixed text `file reading failed`, in which the path
does not occur. -/
theorem read_error_without_path :
    getResourcesFromFiles sampleEnv ["a.yaml", "missing.yaml"]
        = ([], some (GoError.wrap
            (GoError.base "open missing.yaml: no such file or directory")
            "file reading failed"))
      ∧ ¬ "missing.yaml".toList <:+: "file reading failed".toList := by
  decide

/-- The context message of a read failure is the same text for every path. -/
theorem read_error_message_fixed (env : Env) (pre post : List String) (path : String)
    (cause : GoError) (hpre : ∀ f ∈ pre, usable env f)
    (h : (env.ReadFile path).2 = some cause) :
    getResourcesFromFiles env (pre ++ path :: post)
      = ([], some (GoError.wrap cause "file reading failed")) := by
  rw [getResourcesFromFiles, loop_prefix_usable env pre _ [] hpre,
    loop_cons_read_fails env path post _ cause h]

/-- The context message of a path-resolution failure quotes the string that
`filepath.Abs` returned, the empty string in `lostCwdEnv`, and not the path
`a.yaml` of the input list. -/
theorem abs_error_quotes_result :
    getResourcesFromFiles lostCwdEnv ["a.yaml"]
        = ([], some (GoError.wrap (GoError.base "getwd: no such file or directory")
            "cannot determine the absolute file path of \"\""))
      ∧ ¬ "a.yaml".toList <:+: "cannot determine the absolute file path of \"\"".toList := by
  decide

/-- C19: no document returned by `getResourcesFromFiles` contains `\n---\n`. -/
theorem no_separator_inside (env : Env) (files : List String) (d : inputData)
    (h : d ∈ (getResourcesFromFiles env files).1) :
    ¬ sepMid <:+: d.data := by
  obtain ⟨f, _, hd⟩ := mem_result env files d h
  have hc : d.data ∈ contents (documentsOf env f) := List.mem_map_of_mem _ hd
  rw [documentsOf, contents_splitFile] at hc
  exact tight_mem _ _ (tight_filter keeps _ (tight_Split _)) hc

/-- C19 at the file `a.yaml` of `sampleEnv`, for its second document. -/
theorem no_separator_inside_witness :
    ¬ sepMid <:+: "b: 2\n".toList :=
  no_separator_inside sampleEnv ["a.yaml"] { fileName := "/w/a.yaml", data := "b: 2\n".toList }
    (by decide)

end Kedgify
